import Mathlib

/-!
Verification development for the ecg_hrv_pipeline repository
(SpiessSolution/ecg_hrv_pipeline).

The repository's Python implementation modules (`src/utils/data_utils.py`,
`src/utils/parameters.py`, `src/utils/nk_pipeline.py`,
`src/app/analyse_we_love_reading.py`) are not part of the sources available
here; only their caller (the showcase notebook, with recorded outputs) and
the readme are.  The definitions below therefore model the segmenter,
windowed-HRV aggregator and parameter resolver from the specification's
words, using exact rational timestamps in place of floating-point seconds.
-/

namespace ECGHRV

/-- Modelled from the spec (§3 Data Model, "Signal Table"): one row of the
signal table — a timestamp in seconds (relative time), a signal value, an
optional peak flag (`ECG_R_Peaks`), and an optional event label. -/
structure Row where
  ts : ℚ
  signal : ℚ
  peak : Bool
  event : Option String
deriving Repr, DecidableEq

/-- Modelled from the spec (§3): the Signal Table invariant — timestamps are
strictly increasing. -/
def StrictlyIncreasing (l : List Row) : Prop :=
  l.Pairwise (fun a b => a.ts < b.ts)

instance (l : List Row) : Decidable (StrictlyIncreasing l) := by
  unfold StrictlyIncreasing; infer_instance

/-- Modelled from the spec (§3, "Segment Definition"): a named tuple
(segment_name, onset_event_label, duration_seconds). -/
structure SegmentDef where
  name : String
  onset : String
  duration : ℚ
deriving Repr, DecidableEq

/-- Row predicate: the row carries the given onset event label. -/
def isOnset (label : String) (r : Row) : Bool :=
  r.event == some label

/-- Row predicate: the row's timestamp lies in the closed extraction
interval [onset, onset + duration]. -/
def inSegWindow (onset dur : ℚ) (x : Row) : Bool :=
  decide (onset ≤ x.ts) && decide (x.ts ≤ onset + dur)

/-- Modelled from the spec (§4.2, missing `data_utils.segment_df` internals):
extraction of one segment.  The first row whose event label equals the
onset label is located; if none exists the lookup error is surfaced as an
`Except.error` carrying the missing label.  Otherwise all rows with
timestamp in the closed interval [onset_timestamp, onset_timestamp +
duration_seconds] are extracted (inclusive at both ends, per §4.2 step 3). -/
def extractSegment (df : List Row) (sd : SegmentDef) : Except String (List Row) :=
  match df.find? (isOnset sd.onset) with
  | none => .error sd.onset
  | some r => .ok (df.filter (inSegWindow r.ts sd.duration))

/-- Modelled from the spec (§4.2, missing `data_utils.segment_df`): slice the
signal table into one sub-table per segment definition, in definition
order; a lookup failure for any definition is surfaced to the caller. -/
def segment_df (df : List Row) : List SegmentDef → Except String (List (List Row))
  | [] => .ok []
  | sd :: rest =>
      match extractSegment df sd with
      | .error e => .error e
      | .ok seg =>
          match segment_df df rest with
          | .error e => .error e
          | .ok segs => .ok (seg :: segs)

/-- First timestamp of a table (0 for an empty table). -/
def firstTs (l : List Row) : ℚ :=
  (l.head?.map Row.ts).getD 0

/-- Last timestamp of a table (0 for an empty table). -/
def lastTs (l : List Row) : ℚ :=
  (l.getLast?.map Row.ts).getD 0

/-- Modelled from the spec (§4.3, missing
`nk_pipeline.calculate_windowed_HRV_metrics` internals): number of analysis
windows of a segment — the segment's time span divided by the window
duration, rounded up so that the final window may be partial; an empty
segment yields zero windows. -/
def nWindows (seg : List Row) (d : ℚ) : ℕ :=
  if seg.isEmpty then 0 else (Int.ceil ((lastTs seg - firstTs seg) / d)).toNat

/-- Modelled from the spec (§4.3): the sub-table of the k-th analysis
window — rows whose timestamp lies in the half-open nominal cell
[t0 + k·d, t0 + k·d + d). -/
def windowSlice (seg : List Row) (t0 d : ℚ) (k : ℕ) : List Row :=
  seg.filter (fun r => decide (t0 + k * d ≤ r.ts) && decide (r.ts < t0 + k * d + d))

/-- Timestamps of the detected peaks of a window, in order. -/
def peakTimes (l : List Row) : List ℚ :=
  (l.filter (fun r => r.peak)).map Row.ts

/-- Successive differences of a list. -/
def diffs : List ℚ → List ℚ
  | a :: b :: rest => (b - a) :: diffs (b :: rest)
  | _ => []

/-- Modelled from the spec (§4.3 and §6, missing external HRV engine):
the RMSSD-equivalent variability statistic — the mean squared successive
difference of the inter-peak (NN) intervals.  With fewer than two
successive-difference values (i.e. fewer than three peaks) the statistic is
undefined and the missing-value marker `none` is returned instead of an
error, which is the "degrees of freedom ≤ 0" degradation the spec
describes. -/
def mssd (peaks : List ℚ) : Option ℚ :=
  let dd := diffs (diffs peaks)
  if dd.length = 0 then none
  else some ((dd.map (fun x => x * x)).sum / dd.length)

/-- Modelled from the spec (§3, "Window Metric Row"): one HRV result row
with attached metadata.  `start_index` and `stop_index` are the window's
actual timestamp bounds (the first and last sample actually included),
absent for a window that contains no sample. -/
structure WindowRow where
  start_index : Option ℚ
  stop_index : Option ℚ
  analysis_window : ℕ
  segment_name : String
  n_peaks : ℕ
  rmssd : Option ℚ
deriving Repr, DecidableEq

/-- Modelled from the spec (§4.3): build the metric row of the k-th window
from its sub-table. -/
def mkWindowRow (segName : String) (k : ℕ) (w : List Row) : WindowRow :=
  { start_index := w.head?.map Row.ts
    stop_index := w.getLast?.map Row.ts
    analysis_window := k
    segment_name := segName
    n_peaks := (peakTimes w).length
    rmssd := mssd (peakTimes w) }

/-- Modelled from the spec (§4.3, missing
`nk_pipeline.calculate_windowed_HRV_metrics`): partition one segment into
consecutive non-overlapping windows starting at the segment's first
timestamp and emit one metric row per window, with a zero-based
`analysis_window` counter. -/
def calculate_windowed_HRV_metrics (segName : String) (seg : List Row) (d : ℚ) :
    List WindowRow :=
  (List.range (nWindows seg d)).map
    (fun k => mkWindowRow segName k (windowSlice seg (firstTs seg) d k))

/-- Modelled from the spec (§4.3, missing
`app.compute_windowed_hrv_across_segments`): windowed HRV metrics of every
segment, concatenated in segment order then window order. -/
def compute_windowed_hrv_across_segments
    (segments : List (String × List Row)) (d : ℚ) : List WindowRow :=
  (segments.map (fun p => calculate_windowed_HRV_metrics p.1 p.2 d)).flatten

/-- Modelled from the spec (§4.1): the nested base configuration
(`parameters.base_params`), reduced to the fields the resolver claims
mention — cleaning method, peak-detection method, segmentation window
spec, analysis-window duration. -/
structure Params where
  cleaning_method : String
  peak_method : String
  segmentation : List SegmentDef
  window_duration : ℚ
deriving Repr, DecidableEq

/-- Modelled from the spec (§4.1 and §9): a per-subject override fragment;
`none` fields fall back to the base configuration. -/
structure ParamsOverride where
  cleaning_method : Option String
  peak_method : Option String
  segmentation : Option (List SegmentDef)
  window_duration : Option ℚ
deriving Repr, DecidableEq

/-- Modelled from the spec (§4.1): deep-merge of an override fragment onto a
copy of the base configuration — the override wins per field, unspecified
fields fall back to the base. -/
def mergeParams (base : Params) (o : ParamsOverride) : Params :=
  { cleaning_method := o.cleaning_method.getD base.cleaning_method
    peak_method := o.peak_method.getD base.peak_method
    segmentation := o.segmentation.getD base.segmentation
    window_duration := o.window_duration.getD base.window_duration }

/-- Modelled from the spec (§9): the explicit mapping from subject
identifier to override fragment, looked up by first match. -/
def lookupOverride (tbl : List (String × ParamsOverride)) (s : String) :
    Option ParamsOverride :=
  (tbl.find? (fun p => p.1 == s)).map Prod.snd

/-- Modelled from the spec (§4.1): override resolution against a base
configuration; an absent override is not an error — the base configuration
is returned unchanged. -/
def resolveWith (tbl : List (String × ParamsOverride)) (s : String)
    (base : Params) : Params :=
  match lookupOverride tbl s with
  | none => base
  | some o => mergeParams base o

/-- Modelled from the spec (§4.1, missing
`parameters.configure_segmentation_params`): dyad-level resolution of the
segmentation parameters. -/
def configure_segmentation_params (tbl : List (String × ParamsOverride))
    (subjectId : String) (base : Params) : Params :=
  resolveWith tbl subjectId base

/-- Modelled from the spec (§4.1, missing
`parameters.configure_ecg_params`): individual-level resolution of the ECG
preprocessing parameters — child and mother may receive different
settings within the same dyad. -/
def configure_ecg_params (childTbl motherTbl : List (String × ParamsOverride))
    (subjectId : String) (base : Params) : Params × Params :=
  (resolveWith childTbl subjectId base, resolveWith motherTbl subjectId base)

/-- Modelled from the spec (§9): the configuration environment the
resolvers read — an immutable base configuration value plus the explicit
override mappings, threaded through the pipeline by explicit state
passing so that frame effects can be stated. -/
structure Env where
  base : Params
  seg_overrides : List (String × ParamsOverride)
  child_overrides : List (String × ParamsOverride)
  mother_overrides : List (String × ParamsOverride)
deriving Repr, DecidableEq

/-- Modelled from the spec (§4.1): state-passing form of
`configure_segmentation_params` — the effective configuration is produced
on a copy and the environment is returned for the next step. -/
def configure_segmentation_paramsS (subjectId : String) (env : Env) :
    Params × Env :=
  (configure_segmentation_params env.seg_overrides subjectId env.base, env)

/-- Modelled from the spec (§4.1): state-passing form of
`configure_ecg_params`. -/
def configure_ecg_paramsS (subjectId : String) (env : Env) :
    (Params × Params) × Env :=
  (configure_ecg_params env.child_overrides env.mother_overrides subjectId env.base,
   env)

/-- Modelled from the spec (§5): the sequential per-dyad resolution loop —
for each subject in turn, resolve the segmentation parameters and then the
child/mother ECG parameters, threading the configuration environment
through every call. -/
def resolveDyadSeq : List String → Env → List (Params × Params × Params) × Env
  | [], env => ([], env)
  | s :: rest, env =>
      let rs := configure_segmentation_paramsS s env
      let re := configure_ecg_paramsS s rs.2
      let rr := resolveDyadSeq rest re.2
      ((rs.1, re.1.1, re.1.2) :: rr.1, rr.2)

/-- The default base configuration used by the showcase notebook: neurokit
cleaning and peak detection, the WLR segmentation spec with a 90 s
baseline starting at the Keyboard:F1 event, and a 30 s analysis window. -/
def base_params : Params :=
  { cleaning_method := "neurokit"
    peak_method := "neurokit"
    segmentation := [{ name := "baseline", onset := "Keyboard:F1", duration := 90 }]
    window_duration := 30 }

/-! ### Helper lemmas about the segmenter -/

lemma inSegWindow_iff (onset dur : ℚ) (x : Row) :
    inSegWindow onset dur x = true ↔ onset ≤ x.ts ∧ x.ts ≤ onset + dur := by
  simp [inSegWindow]

lemma exists_find_of_filter_length_one (df : List Row) (lab : String)
    (honce : (df.filter (isOnset lab)).length = 1) :
    ∃ r, df.find? (isOnset lab) = some r := by
  have hne : df.filter (isOnset lab) ≠ [] := by
    intro h
    rw [h] at honce
    simp at honce
  obtain ⟨x, hx⟩ := List.exists_mem_of_ne_nil _ hne
  obtain ⟨hxdf, hxon⟩ := List.mem_filter.mp hx
  exact Option.isSome_iff_exists.mp (List.find?_isSome.mpr ⟨x, hxdf, hxon⟩)

lemma filter_inSegWindow_head (dur : ℚ) (hdur : 0 ≤ dur) (lab : String) :
    ∀ df : List Row, StrictlyIncreasing df →
      ∀ r : Row, df.find? (isOnset lab) = some r →
        (df.filter (inSegWindow r.ts dur)).head? = some r := by
  intro df
  induction df with
  | nil => intro _ r hfind; simp at hfind
  | cons a tl ih =>
      intro hsort r hfind
      rcases List.pairwise_cons.mp hsort with ⟨hfirst, htl⟩
      by_cases h : isOnset lab a
      · rw [List.find?_cons_of_pos _ h] at hfind
        obtain rfl : a = r := by injection hfind
        rw [List.filter_cons_of_pos ((inSegWindow_iff _ _ _).mpr ⟨le_refl _, by linarith⟩)]
        rfl
      · rw [List.find?_cons_of_neg _ h] at hfind
        have hr : r ∈ tl := List.mem_of_find?_eq_some hfind
        have hlt : a.ts < r.ts := hfirst r hr
        rw [List.filter_cons_of_neg]
        · exact ih htl r hfind
        · simp only [inSegWindow_iff]
          rintro ⟨hle, -⟩
          exact absurd hle hlt.not_le

/-- Sample rows used by the witnesses: a timestamp and an optional
event label (signal value 0, no peak flag). -/
def wRow (t : ℚ) (e : Option String) : Row :=
  { ts := t, signal := 0, peak := false, event := e }

/-- Signal table used by the segmenter witnesses: four strictly
increasing timestamps with a unique F1 event at t = 1. -/
def c1df : List Row :=
  [wRow 0 none, wRow 1 (some "F1"), wRow 2 none, wRow 4 none]

/-- Segment definition used by the C1 witness. -/
def c1sd : SegmentDef :=
  { name := "baseline", onset := "F1", duration := 2 }

/-- C1: for every signal table with strictly increasing timestamps and
every segment definition with a non-negative duration whose onset event
label occurs exactly once in the event column, `segment_df` succeeds and
returns a segment whose first timestamp equals the onset timestamp and
whose last timestamp is at most onset timestamp + duration_seconds. -/
theorem segment_first_ts_eq_onset_and_last_le_end
    (df : List Row) (sd : SegmentDef)
    (hsort : StrictlyIncreasing df) (hdur : 0 ≤ sd.duration)
    (honce : (df.filter (isOnset sd.onset)).length = 1) :
    ∃ r seg, df.find? (isOnset sd.onset) = some r ∧
      segment_df df [sd] = Except.ok [seg] ∧
      seg.head?.map Row.ts = some r.ts ∧
      ∃ z, seg.getLast?.map Row.ts = some z ∧ z ≤ r.ts + sd.duration := by
  obtain ⟨r, hfind⟩ := exists_find_of_filter_length_one df sd.onset honce
  have hhead := filter_inSegWindow_head sd.duration hdur sd.onset df hsort r hfind
  refine ⟨r, df.filter (inSegWindow r.ts sd.duration), hfind, ?_, ?_, ?_⟩
  · simp [segment_df, extractSegment, hfind]
  · rw [hhead]
    rfl
  · have hne : df.filter (inSegWindow r.ts sd.duration) ≠ [] := by
      intro h
      rw [h] at hhead
      simp at hhead
    obtain ⟨z, hz⟩ := Option.isSome_iff_exists.mp (List.getLast?_isSome.mpr hne)
    refine ⟨z.ts, by rw [hz]; rfl, ?_⟩
    have hzwin := (List.mem_filter.mp (List.mem_of_getLast?_eq_some hz)).2
    exact ((inSegWindow_iff _ _ _).mp hzwin).2

/-- Witness for C1 at a concrete table: the hypotheses hold for `c1df`
and `c1sd`, and the theorem applies. -/
theorem segment_first_ts_eq_onset_and_last_le_end_witness :
    StrictlyIncreasing c1df ∧ 0 ≤ c1sd.duration ∧
      (c1df.filter (isOnset c1sd.onset)).length = 1 ∧
      (∃ r seg, c1df.find? (isOnset c1sd.onset) = some r ∧
        segment_df c1df [c1sd] = Except.ok [seg] ∧
        seg.head?.map Row.ts = some r.ts ∧
        ∃ z, seg.getLast?.map Row.ts = some z ∧ z ≤ r.ts + c1sd.duration) :=
  ⟨by norm_num [StrictlyIncreasing, c1df, wRow],
   by norm_num [c1sd],
   by norm_num [c1df, c1sd, wRow, isOnset, List.filter],
   segment_first_ts_eq_onset_and_last_le_end c1df c1sd
     (by norm_num [StrictlyIncreasing, c1df, wRow])
     (by norm_num [c1sd])
     (by norm_num [c1df, c1sd, wRow, isOnset, List.filter])⟩

/-- C4: for every signal table in which a segment definition's onset event
label is absent from the event column, `segment_df` signals the lookup
error to the caller (it does not skip the segment or return a result). -/
theorem segment_missing_onset_signals_error
    (df : List Row) (sd : SegmentDef) (rest : List SegmentDef)
    (habs : ∀ r ∈ df, r.event ≠ some sd.onset) :
    segment_df df (sd :: rest) = Except.error sd.onset := by
  have hfind : df.find? (isOnset sd.onset) = none := by
    rw [List.find?_eq_none]
    intro x hx
    simpa [isOnset] using habs x hx
  simp [segment_df, extractSegment, hfind]

/-- Segment definition used by the C4 witness: its onset label F9 occurs
nowhere in `c1df`. -/
def c4sd : SegmentDef :=
  { name := "missing", onset := "F9", duration := 2 }

/-- Witness for C4 at a concrete table: the label F9 is absent from
`c1df` and the segmenter surfaces the lookup error. -/
theorem segment_missing_onset_signals_error_witness :
    (∀ r ∈ c1df, r.event ≠ some c4sd.onset) ∧
      segment_df c1df [c4sd] = Except.error c4sd.onset :=
  ⟨by simp [c1df, c4sd, wRow],
   segment_missing_onset_signals_error c1df c4sd []
     (by simp [c1df, c4sd, wRow])⟩

/-! ### Helper lemmas about the windowed aggregator -/

lemma windowSlice_bounds {seg : List Row} {t0 d : ℚ} {k : ℕ} {x : Row}
    (hx : x ∈ windowSlice seg t0 d k) :
    t0 + k * d ≤ x.ts ∧ x.ts < t0 + k * d + d := by
  have h := (List.mem_filter.mp hx).2
  simpa using h

lemma nWindows_of_ne_nil (seg : List Row) (d : ℚ) (hne : seg ≠ []) :
    nWindows seg d = (Int.ceil ((lastTs seg - firstTs seg) / d)).toNat := by
  simp [nWindows, hne]

lemma diffs_eq_nil_of_short {l : List ℚ} (h : l.length ≤ 1) : diffs l = [] := by
  cases l with
  | nil => rfl
  | cons a t =>
      cases t with
      | nil => rfl
      | cons b r => simp at h

lemma firstTs_le_lastTs :
    ∀ seg : List Row, StrictlyIncreasing seg → seg ≠ [] → firstTs seg ≤ lastTs seg := by
  intro seg
  induction seg with
  | nil => intro _ h; cases h rfl
  | cons a tl ih =>
      intro hsort _
      cases tl with
      | nil => simp [firstTs, lastTs]
      | cons b t2 =>
          rcases List.pairwise_cons.mp hsort with ⟨hfirst, htl⟩
          have h2 := ih htl (by simp)
          have hab : a.ts < b.ts := hfirst b (by simp)
          have e2 : lastTs (a :: b :: t2) = lastTs (b :: t2) := by
            simp [lastTs, List.getLast?_cons_cons]
          have e3 : firstTs (b :: t2) = b.ts := rfl
          rw [show firstTs (a :: b :: t2) = a.ts from rfl, e2]
          rw [e3] at h2
          linarith

/-- The segment table of the spec's concrete example, reduced to its
boundary samples: the F1 onset sample at 79.34 s, the last sample
109.338 s inside the 30 s window, and the inclusive segment end sample
at 109.34 s. -/
def demoSeg : List Row :=
  [wRow 79.34 (some "Keyboard:F1"), wRow 109.338 none, wRow 109.34 none]

/-- C2: for every non-empty segment table whose time span is exactly q
windows of duration d, the aggregator emits exactly q rows whose
analysis_window values are 0..q-1 in order, and every sample of the k-th
window lies in the k-th d-second cell; in the concrete 30 s case starting
at t = 79.34 the single row has analysis_window = 0, start_index = 79.34
and stop_index = 109.338 (the actual last-sample boundary). -/
theorem aggregate_even_division (name : String) (seg : List Row) (d : ℚ) (q : ℕ)
    (hne : seg ≠ []) (hd : 0 < d)
    (hdiv : lastTs seg - firstTs seg = q * d) :
    ((calculate_windowed_HRV_metrics name seg d).length = q ∧
      (calculate_windowed_HRV_metrics name seg d).map WindowRow.analysis_window
        = List.range q ∧
      ∀ k < q, ∀ r ∈ windowSlice seg (firstTs seg) d k,
        firstTs seg + k * d ≤ r.ts ∧ r.ts < firstTs seg + k * d + d) ∧
    calculate_windowed_HRV_metrics "baseline" demoSeg 30 =
      [{ start_index := some 79.34, stop_index := some 109.338,
         analysis_window := 0, segment_name := "baseline",
         n_peaks := 0, rmssd := none }] := by
  have hq : nWindows seg d = q := by
    rw [nWindows_of_ne_nil seg d hne, hdiv]
    rw [mul_div_assoc, div_self (ne_of_gt hd), mul_one]
    rw [Int.ceil_natCast]
    exact Int.toNat_natCast q
  refine ⟨⟨?_, ?_, ?_⟩, ?_⟩
  · simp [calculate_windowed_HRV_metrics, hq]
  · simp only [calculate_windowed_HRV_metrics, hq, List.map_map]
    rw [show (WindowRow.analysis_window ∘ fun k =>
        mkWindowRow name k (windowSlice seg (firstTs seg) d k)) = id from rfl]
    exact List.map_id _
  · intro k _ r hr
    exact windowSlice_bounds hr
  · norm_num [calculate_windowed_HRV_metrics, nWindows, windowSlice, firstTs, lastTs,
      demoSeg, wRow, mkWindowRow, peakTimes, mssd, diffs, List.filter, List.range_succ]

/-- Segment used by the C2 witness: samples at 0, 1, 2 s whose span of
2 s is exactly two 1 s windows. -/
def c2seg : List Row :=
  [wRow 0 none, wRow 1 none, wRow 2 none]

/-- Witness for C2 at a concrete segment: the hypotheses hold for
`c2seg` with d = 1 and q = 2, and the theorem applies. -/
theorem aggregate_even_division_witness :
    (c2seg ≠ [] ∧ (0:ℚ) < 1 ∧ lastTs c2seg - firstTs c2seg = (2:ℕ) * (1:ℚ)) ∧
      (((calculate_windowed_HRV_metrics "w" c2seg 1).length = 2 ∧
        (calculate_windowed_HRV_metrics "w" c2seg 1).map WindowRow.analysis_window
          = List.range 2 ∧
        ∀ k < 2, ∀ r ∈ windowSlice c2seg (firstTs c2seg) 1 k,
          firstTs c2seg + k * 1 ≤ r.ts ∧ r.ts < firstTs c2seg + k * 1 + 1) ∧
      calculate_windowed_HRV_metrics "baseline" demoSeg 30 =
        [{ start_index := some 79.34, stop_index := some 109.338,
           analysis_window := 0, segment_name := "baseline",
           n_peaks := 0, rmssd := none }]) :=
  ⟨⟨by simp [c2seg], by norm_num, by norm_num [c2seg, wRow, firstTs, lastTs]⟩,
   aggregate_even_division "w" c2seg 1 2
     (by simp [c2seg]) (by norm_num) (by norm_num [c2seg, wRow, firstTs, lastTs])⟩

/-- C3: every analysis window — in particular one containing zero or one
detected peak — still yields an output row; when the window's peak count
is at most one the RMSSD-equivalent statistic of that row is the
missing-value marker `none`, not an error and not a dropped row. -/
theorem window_few_peaks_row_with_missing_stat
    (name : String) (seg : List Row) (d : ℚ) (k : ℕ)
    (hk : k < nWindows seg d)
    (hpeaks : (peakTimes (windowSlice seg (firstTs seg) d k)).length ≤ 1) :
    ∃ row, (calculate_windowed_HRV_metrics name seg d)[k]? = some row ∧
      row.rmssd = none ∧ row.analysis_window = k ∧ row.segment_name = name := by
  refine ⟨mkWindowRow name k (windowSlice seg (firstTs seg) d k), ?_, ?_, rfl, rfl⟩
  · rw [calculate_windowed_HRV_metrics, List.getElem?_map, List.getElem?_range hk]
    rfl
  · show mssd (peakTimes (windowSlice seg (firstTs seg) d k)) = none
    rw [mssd, diffs_eq_nil_of_short hpeaks]
    rfl

/-- Segment used by the C3 witness: two samples, no detected peaks. -/
def c3seg : List Row :=
  [wRow 0 none, wRow 5 none]

/-- Witness for C3 at a concrete segment: window 0 of `c3seg` holds zero
peaks and the aggregator still emits its row, with a missing RMSSD. -/
theorem window_few_peaks_row_with_missing_stat_witness :
    (0 < nWindows c3seg 10 ∧
      (peakTimes (windowSlice c3seg (firstTs c3seg) 10 0)).length ≤ 1) ∧
      (∃ row, (calculate_windowed_HRV_metrics "b" c3seg 10)[0]? = some row ∧
        row.rmssd = none ∧ row.analysis_window = 0 ∧ row.segment_name = "b") :=
  ⟨⟨by norm_num [nWindows, c3seg, wRow, firstTs, lastTs],
    by norm_num [peakTimes, windowSlice, c3seg, wRow, firstTs, List.filter]⟩,
   window_few_peaks_row_with_missing_stat "b" c3seg 10 0
     (by norm_num [nWindows, c3seg, wRow, firstTs, lastTs])
     (by norm_num [peakTimes, windowSlice, c3seg, wRow, firstTs, List.filter])⟩

/-- C5: for every non-empty, strictly increasing segment table whose time
span is not an exact multiple of the window duration, the aggregator still
emits a row for the final window: the output has nWindows ≥ 1 rows, the
last row's analysis_window is nWindows - 1, the data remaining for the
last window spans strictly less than the window duration, and the
segment's final sample does fall inside that last window. -/
theorem aggregate_partial_last_window (name : String) (seg : List Row) (d : ℚ)
    (hne : seg ≠ []) (hsort : StrictlyIncreasing seg) (hd : 0 < d)
    (hndiv : ¬ ∃ q : ℕ, lastTs seg - firstTs seg = q * d) :
    0 < nWindows seg d ∧
    (calculate_windowed_HRV_metrics name seg d).length = nWindows seg d ∧
    (calculate_windowed_HRV_metrics name seg d).getLast?.map WindowRow.analysis_window
      = some (nWindows seg d - 1) ∧
    lastTs seg - (firstTs seg + ((nWindows seg d - 1 : ℕ) : ℚ) * d) < d ∧
    (∃ z, seg.getLast? = some z ∧
      z ∈ windowSlice seg (firstTs seg) d (nWindows seg d - 1)) := by
  have h0L : 0 ≤ lastTs seg - firstTs seg :=
    sub_nonneg.mpr (firstTs_le_lastTs seg hsort hne)
  have hLne : lastTs seg - firstTs seg ≠ 0 := by
    intro h
    exact hndiv ⟨0, by rw [h]; simp⟩
  have hLpos : 0 < lastTs seg - firstTs seg := lt_of_le_of_ne h0L (Ne.symm hLne)
  have hcpos : 0 < Int.ceil ((lastTs seg - firstTs seg) / d) :=
    Int.ceil_pos.mpr (div_pos hLpos hd)
  have hn := nWindows_of_ne_nil seg d hne
  have hnpos : 0 < nWindows seg d := by rw [hn]; omega
  have hcastZ : ((nWindows seg d : ℕ) : ℤ) = Int.ceil ((lastTs seg - firstTs seg) / d) := by
    rw [hn]; exact Int.toNat_of_nonneg hcpos.le
  have hcast : ((nWindows seg d : ℕ) : ℚ)
      = ((Int.ceil ((lastTs seg - firstTs seg) / d) : ℤ) : ℚ) := by
    exact_mod_cast congrArg (fun z : ℤ => (z : ℚ)) hcastZ
  have htc : (((Int.ceil ((lastTs seg - firstTs seg) / d)).toNat : ℕ) : ℚ)
      = ((Int.ceil ((lastTs seg - firstTs seg) / d) : ℤ) : ℚ) := by
    exact_mod_cast Int.toNat_of_nonneg hcpos.le
  have hnotint : (lastTs seg - firstTs seg) / d
      ≠ ((Int.ceil ((lastTs seg - firstTs seg) / d) : ℤ) : ℚ) := by
    intro heq
    apply hndiv
    refine ⟨(Int.ceil ((lastTs seg - firstTs seg) / d)).toNat, ?_⟩
    rw [htc]
    exact (div_eq_iff (ne_of_gt hd)).mp heq
  have hltceil : (lastTs seg - firstTs seg) / d
      < ((Int.ceil ((lastTs seg - firstTs seg) / d) : ℤ) : ℚ) :=
    lt_of_le_of_ne (Int.le_ceil _) hnotint
  have hLlt : lastTs seg - firstTs seg < ((nWindows seg d : ℕ) : ℚ) * d := by
    rw [hcast]
    exact (div_lt_iff₀ hd).mp hltceil
  have hceilm1 : ((Int.ceil ((lastTs seg - firstTs seg) / d) : ℤ) : ℚ) - 1
      < (lastTs seg - firstTs seg) / d := by
    have := Int.ceil_lt_add_one ((lastTs seg - firstTs seg) / d)
    linarith
  have hLgt : (((nWindows seg d : ℕ) : ℚ) - 1) * d < lastTs seg - firstTs seg := by
    rw [hcast]
    exact (lt_div_iff₀ hd).mp hceilm1
  have hsub : (((nWindows seg d - 1 : ℕ)) : ℚ) = ((nWindows seg d : ℕ) : ℚ) - 1 := by
    rw [Nat.cast_sub hnpos, Nat.cast_one]
  refine ⟨hnpos, ?_, ?_, ?_, ?_⟩
  · simp [calculate_windowed_HRV_metrics]
  · obtain ⟨m, hm⟩ := Nat.exists_eq_succ_of_ne_zero (Nat.pos_iff_ne_zero.mp hnpos)
    rw [calculate_windowed_HRV_metrics, hm, List.range_succ, List.map_append]
    simp [mkWindowRow]
  · rw [hsub]
    linarith
  · obtain ⟨z, hz⟩ := Option.isSome_iff_exists.mp (List.getLast?_isSome.mpr hne)
    have hzts : lastTs seg = z.ts := by rw [lastTs, hz]; rfl
    refine ⟨z, hz, ?_⟩
    rw [windowSlice, List.mem_filter]
    refine ⟨List.mem_of_getLast?_eq_some hz, ?_⟩
    simp only [Bool.and_eq_true, decide_eq_true_eq]
    constructor
    · rw [hsub] at *
      nlinarith [hLgt, hzts]
    · rw [hsub] at *
      nlinarith [hLlt, hzts]

/-- Segment used by the C5 witness: samples at 0 and 19 s, a span of 19 s
that is not a multiple of the 10 s window. -/
def c5seg : List Row :=
  [wRow 0 none, wRow 19 none]

/-- Witness for C5 at a concrete segment: `c5seg` spans 19 s, not a
multiple of 10 s, and the theorem applies. -/
theorem aggregate_partial_last_window_witness :
    (c5seg ≠ [] ∧ StrictlyIncreasing c5seg ∧ (0:ℚ) < 10 ∧
      ¬ ∃ q : ℕ, lastTs c5seg - firstTs c5seg = q * 10) ∧
    (0 < nWindows c5seg 10 ∧
      (calculate_windowed_HRV_metrics "s" c5seg 10).length = nWindows c5seg 10 ∧
      (calculate_windowed_HRV_metrics "s" c5seg 10).getLast?.map WindowRow.analysis_window
        = some (nWindows c5seg 10 - 1) ∧
      lastTs c5seg - (firstTs c5seg + ((nWindows c5seg 10 - 1 : ℕ) : ℚ) * 10) < 10 ∧
      (∃ z, c5seg.getLast? = some z ∧
        z ∈ windowSlice c5seg (firstTs c5seg) 10 (nWindows c5seg 10 - 1))) :=
  ⟨⟨by simp [c5seg],
    by norm_num [StrictlyIncreasing, c5seg, wRow],
    by norm_num,
    by
      rintro ⟨q, hq⟩
      rw [show lastTs c5seg - firstTs c5seg = 19 by norm_num [c5seg, wRow, firstTs, lastTs]] at hq
      rcases Nat.lt_or_ge q 2 with h | h
      · interval_cases q <;> norm_num at hq
      · have : (2:ℚ) ≤ (q:ℚ) := by exact_mod_cast h
        nlinarith⟩,
   aggregate_partial_last_window "s" c5seg 10
     (by simp [c5seg])
     (by norm_num [StrictlyIncreasing, c5seg, wRow])
     (by norm_num)
     (by
      rintro ⟨q, hq⟩
      rw [show lastTs c5seg - firstTs c5seg = 19 by norm_num [c5seg, wRow, firstTs, lastTs]] at hq
      rcases Nat.lt_or_ge q 2 with h | h
      · interval_cases q <;> norm_num at hq
      · have : (2:ℚ) ≤ (q:ℚ) := by exact_mod_cast h
        nlinarith)⟩

/-- C6: an empty segment table yields zero windows, and inside a list of
segments it contributes no rows at all to the concatenated output — the
aggregator returns normally rather than raising an error. -/
theorem empty_segment_contributes_nothing (name : String) (d : ℚ)
    (pre post : List (String × List Row)) :
    calculate_windowed_HRV_metrics name [] d = [] ∧
    compute_windowed_hrv_across_segments (pre ++ (name, []) :: post) d
      = compute_windowed_hrv_across_segments (pre ++ post) d := by
  have h0 : calculate_windowed_HRV_metrics name [] d = [] := by
    simp [calculate_windowed_HRV_metrics, nWindows]
  refine ⟨h0, ?_⟩
  simp [compute_windowed_hrv_across_segments, h0]

/-! ### Parameter resolver claims -/

/-- C7: for every subject_id with no override mapping configured, the
parameter resolver returns the base configuration unchanged — a silent
fallback, never an error. -/
theorem unknown_subject_yields_base (tbl : List (String × ParamsOverride))
    (s : String) (base : Params)
    (hnone : lookupOverride tbl s = none) :
    configure_segmentation_params tbl s base = base := by
  simp [configure_segmentation_params, resolveWith, hnone]

/-- An override table used by the resolver witnesses: only dyad b01 has an
override configured. -/
def c7tbl : List (String × ParamsOverride) :=
  [("b01", { cleaning_method := some "biosppy", peak_method := none,
             segmentation := none, window_duration := none })]

/-- Witness for C7 at a concrete table: subject z99 has no override in
`c7tbl` and resolution returns `base_params` unchanged. -/
theorem unknown_subject_yields_base_witness :
    lookupOverride c7tbl "z99" = none ∧
      configure_segmentation_params c7tbl "z99" base_params = base_params :=
  ⟨by simp [lookupOverride, c7tbl],
   unknown_subject_yields_base c7tbl "z99" base_params
     (by simp [lookupOverride, c7tbl])⟩

lemma configure_segmentation_paramsS_env (s : String) (env : Env) :
    (configure_segmentation_paramsS s env).2 = env := rfl

lemma configure_ecg_paramsS_env (s : String) (env : Env) :
    (configure_ecg_paramsS s env).2 = env := rfl

/-- C8: the parameter resolvers are side-effect free — threading the
configuration environment through the whole per-dyad resolution sequence
(segmentation resolution followed by child/mother ECG resolution, for any
list of subjects) returns the environment, and in particular the base
configuration, unchanged. -/
theorem resolver_never_mutates_base (subjects : List String) (env : Env) :
    (resolveDyadSeq subjects env).2 = env ∧
    (resolveDyadSeq subjects env).2.base = env.base := by
  have h : ∀ (ss : List String) (e : Env), (resolveDyadSeq ss e).2 = e := by
    intro ss
    induction ss with
    | nil => intro e; rfl
    | cons s rest ih =>
        intro e
        simp [resolveDyadSeq, configure_segmentation_paramsS_env,
          configure_ecg_paramsS_env, ih]
  exact ⟨h subjects env, by rw [h subjects env]⟩

/-- C9: resolving the same subject_id twice against the same base and
override configuration yields identical effective configurations — the
second call, run in the environment returned by the first, produces the
same result, and the environment is unchanged afterwards. -/
theorem resolver_idempotent_across_calls (s : String) (env : Env) :
    (configure_segmentation_paramsS s ((configure_segmentation_paramsS s env).2)).1
        = (configure_segmentation_paramsS s env).1 ∧
      (configure_segmentation_paramsS s ((configure_segmentation_paramsS s env).2)).2
        = env := by
  exact ⟨rfl, rfl⟩

/-! ### Window bound claims (C10) -/

/-- Segment exhibiting misaligned sampling: samples at 0 s and 19 s with a
10 s window. -/
def c10seg : List Row :=
  [wRow 0 none, wRow 19 none]

/-- Counterexample to C10 as stated: on `c10seg` with a 10 s window the
aggregator's two rows carry start_index 0 and 19, which are not spaced
exactly one window duration (10 s) apart. -/
theorem window_start_spacing_counterexample :
    (calculate_windowed_HRV_metrics "s" c10seg 10).map WindowRow.start_index
        = [some 0, some 19] ∧
      some ((19 : ℚ)) ≠ some ((0 : ℚ) + 10) := by
  have hc : (Int.ceil ((19:ℚ)/10) : ℤ) = 2 := by
    rw [Int.ceil_eq_iff]
    norm_num
  have hn : nWindows c10seg 10 = 2 := by
    rw [nWindows_of_ne_nil c10seg 10 (by simp [c10seg])]
    rw [show lastTs c10seg - firstTs c10seg = 19 by norm_num [c10seg, wRow, firstTs, lastTs]]
    simp [hc]
  constructor
  · unfold calculate_windowed_HRV_metrics
    rw [hn]
    norm_num [windowSlice, firstTs, lastTs,
      c10seg, wRow, mkWindowRow, peakTimes, mssd, diffs, List.filter, List.range_succ]
  · norm_num

/-- C10 (amended): for every non-empty analysis window, the emitted row's
stop_index is the timestamp of the last sample actually included and is
strictly less than start_index + window_duration; the start_index is the
first included sample and lies inside the window's nominal cell
[t0 + k·d, t0 + k·d + d) — cells, not start_index values, are spaced
exactly window_duration apart. -/
theorem window_bounds_amended (name : String) (seg : List Row) (d : ℚ) (k : ℕ)
    (hd : 0 < d) (hk : k < nWindows seg d)
    (hwne : windowSlice seg (firstTs seg) d k ≠ []) :
    ∃ row, (calculate_windowed_HRV_metrics name seg d)[k]? = some row ∧
      row.start_index = (windowSlice seg (firstTs seg) d k).head?.map Row.ts ∧
      row.stop_index = (windowSlice seg (firstTs seg) d k).getLast?.map Row.ts ∧
      (∀ a b, row.start_index = some a → row.stop_index = some b → b < a + d) ∧
      (∀ a, row.start_index = some a →
        firstTs seg + k * d ≤ a ∧ a < firstTs seg + k * d + d) := by
  refine ⟨mkWindowRow name k (windowSlice seg (firstTs seg) d k), ?_, rfl, rfl, ?_, ?_⟩
  · rw [calculate_windowed_HRV_metrics, List.getElem?_map, List.getElem?_range hk]
    rfl
  · intro a b ha hb
    obtain ⟨x, hx, hxa⟩ := Option.map_eq_some'.mp ha
    obtain ⟨y, hy, hyb⟩ := Option.map_eq_some'.mp hb
    have hxmem := List.mem_of_mem_head? (hx ▸ Option.mem_def.mpr rfl)
    have hymem := List.mem_of_getLast?_eq_some hy
    have hbx := windowSlice_bounds hxmem
    have hby := windowSlice_bounds hymem
    rw [← hxa, ← hyb]
    linarith [hbx.1, hby.2]
  · intro a ha
    obtain ⟨x, hx, hxa⟩ := Option.map_eq_some'.mp ha
    have hxmem := List.mem_of_mem_head? (hx ▸ Option.mem_def.mpr rfl)
    have hbx := windowSlice_bounds hxmem
    rw [← hxa]
    exact hbx

/-- Witness for the amended C10 at a concrete segment: window 0 of
`c10seg` is non-empty and its row bounds obey the amended claim. -/
theorem window_bounds_amended_witness :
    ((0:ℚ) < 10 ∧ 0 < nWindows c10seg 10 ∧
      windowSlice c10seg (firstTs c10seg) 10 0 ≠ []) ∧
      (∃ row, (calculate_windowed_HRV_metrics "s" c10seg 10)[0]? = some row ∧
        row.start_index = (windowSlice c10seg (firstTs c10seg) 10 0).head?.map Row.ts ∧
        row.stop_index = (windowSlice c10seg (firstTs c10seg) 10 0).getLast?.map Row.ts ∧
        (∀ a b, row.start_index = some a → row.stop_index = some b → b < a + 10) ∧
        (∀ a, row.start_index = some a →
          firstTs c10seg + 0 * 10 ≤ a ∧ a < firstTs c10seg + 0 * 10 + 10)) :=
  ⟨⟨by norm_num,
    by norm_num [nWindows, c10seg, wRow, firstTs, lastTs],
    by norm_num [windowSlice, c10seg, wRow, firstTs, List.filter]⟩,
   window_bounds_amended "s" c10seg 10 0
     (by norm_num)
     (by norm_num [nWindows, c10seg, wRow, firstTs, lastTs])
     (by norm_num [windowSlice, c10seg, wRow, firstTs, List.filter])⟩

end ECGHRV
